import Mathlib

/-!
Shallow embedding of `UnboundedSizeDenseStore` (src/src/store/unbounded.rs), the
growable offset-indexed dense counter store of a streaming histogram sketch.

Modelling conventions:
* Rust `i32` bucket indices, offsets and lengths are embedded as `Int`
  (mathematical integers).  All claims are stated on inputs within the `i32`
  range; none of the verified executions approach `i32` overflow.  The cast
  chain `(new_max as i64 - new_min as i64) as i32` in `get_new_length` is the
  identity on these inputs.  Rust `i32` division truncates toward zero, hence
  `Int.tdiv` wherever the source divides.
* Rust `f64` counts are embedded as `ℚ`.  The store only adds, compares and
  moves counts, and every concrete count in the verified scenarios is exactly
  representable, so the rational idealization is exact on them.
* `Vec<f64>` is a `List ℚ`.  `counts[i] = v` / `counts[i]` are pointwise
  `setQ` / `getQ`; an out-of-range access (which would panic in Rust) is
  totalized to a no-op / `0`, and the invariant theorems establish that the
  mutation paths only touch in-range positions.  The two stream traversals,
  whose behaviour on this code depends on the panic itself, instead use the
  checked read `streamRead` and return `Option` (`none` models the panic).
* Each Rust `while`/`for` loop becomes a structurally recursive function on a
  `Nat` iteration counter equal to the loop's exact trip count, keeping every
  definition kernel-computable.
-/

attribute [local semireducible] Rat.add

/-- Checked read of `counts[i]` for `i : Int`: `none` models the Rust panic on
an out-of-bounds (or negative, after the `as usize` cast) index. -/
def streamRead (l : List ℚ) (i : Int) : Option ℚ :=
  if h : 0 ≤ i ∧ i.toNat < l.length then some (l.get ⟨i.toNat, h.2⟩) else none

/-- Totalized read of `counts[i]`: `0` when out of range.  The invariant
theorems show the store only reads in-range positions on well-formed states. -/
def getQ (l : List ℚ) (i : Int) : ℚ :=
  if 0 ≤ i then l.getD i.toNat 0 else 0

/-- Totalized write `counts[i] = v`: a no-op when out of range (`List.set`
ignores an index past the end). -/
def setQ (l : List ℚ) (i : Int) (v : ℚ) : List ℚ :=
  if 0 ≤ i then l.set i.toNat v else l

/-- `Vec::resize(n, 0.0)`: truncate to `n` elements or pad with zeros up to
`n` elements.  (The store only ever calls it with `n` at least the current
length, so only the padding case is exercised.) -/
def vecResize (l : List ℚ) (n : Nat) : List ℚ :=
  if n ≤ l.length then l.take n else l ++ List.replicate (n - l.length) 0

/-- Loop body of `for index in a.. { counts[index] = 0.0 }` run `n` times
starting at position `a`; `n` is the trip count `to - from` of the source
loop. -/
def zeroFillN (l : List ℚ) (a : Int) : Nat → List ℚ
  | 0 => l
  | n + 1 => zeroFillN (setQ l a 0) (a + 1) n

/-- Backward copy loop of `array_copy` (the `src_pos < dest_pos` arm):
`offset` starts at `length - 1` and decreases; fuel `n` is the trip count
`length`. -/
def copyBackN (src dest : Int) (l : List ℚ) (off : Int) : Nat → List ℚ
  | 0 => l
  | n + 1 => copyBackN src dest (setQ l (dest + off) (getQ l (src + off))) (off - 1) n

/-- Forward copy loop of `array_copy` (the `src_pos > dest_pos` arm):
`offset` starts at `0` and increases; fuel `n` is the trip count `length`. -/
def copyFwdN (src dest : Int) (l : List ℚ) (off : Int) : Nat → List ℚ
  | 0 => l
  | n + 1 => copyFwdN src dest (setQ l (dest + off) (getQ l (src + off))) (off + 1) n

/-- `array_copy(src_pos, dest_pos, length)`: overlap-aware in-place block move
on the counts buffer, traversing backward when the destination follows the
source and forward when it precedes it (no-op when they coincide). -/
def array_copy (l : List ℚ) (src_pos dest_pos length : Int) : List ℚ :=
  if src_pos < dest_pos then copyBackN src_pos dest_pos l (length - 1) length.toNat
  else if dest_pos < src_pos then copyFwdN src_pos dest_pos l 0 length.toNat
  else l

/-- Summation loop of `get_total_count_with_range`: adds up `n` consecutive
positions starting at `a`. -/
def sumRangeN (l : List ℚ) (a : Int) : Nat → ℚ
  | 0 => 0
  | n + 1 => getQ l a + sumRangeN l (a + 1) n

/-- i32::MAX, the `min_index` sentinel of an empty store. -/
def i32Max : Int := 2147483647

/-- i32::MIN, the `max_index` sentinel of an empty store. -/
def i32Min : Int := -2147483648

/-- Exact integer ceiling of `a / b` for `b > 0`, used to state the
specification formula `ceil((desiredLength + overhead) / growthIncrement)`. -/
def specCeilDiv (a b : Int) : Int := -((-a) / b)

/-- The buffer length the specification text prescribes for a desired span
`d`: `ceil((d + overhead) / growthIncrement) * growthIncrement` with the
default overhead 6 and growth increment 64. -/
def specNewLength (d : Int) : Int := specCeilDiv (d + 6) 64 * 64

/-- The store: a counts buffer, the window offset (bucket index of buffer
position 0), the active range `[min_index, max_index]`, and the two growth
constants. -/
structure UnboundedSizeDenseStore where
  counts : List ℚ
  offset : Int
  min_index : Int
  max_index : Int
  array_length_overhead : Int
  array_length_growth_increment : Int
deriving DecidableEq

namespace UnboundedSizeDenseStore

/-- `UnboundedSizeDenseStore::new()`: empty buffer, sentinel range, growth
increment 64 and overhead 6. -/
def store_new : UnboundedSizeDenseStore :=
  { counts := []
    offset := 0
    min_index := i32Max
    max_index := i32Min
    array_length_growth_increment := 64
    array_length_overhead := 6 }

/-- `is_empty()`: the active range is empty iff `max_index < min_index`. -/
def is_empty (s : UnboundedSizeDenseStore) : Prop :=
  s.max_index < s.min_index

instance (s : UnboundedSizeDenseStore) : Decidable s.is_empty :=
  inferInstanceAs (Decidable (_ < _))

/-- `get_length()`: the buffer length as an integer. -/
def get_length (s : UnboundedSizeDenseStore) : Int :=
  (s.counts.length : Int)

/-- `get_new_length(new_min_index, new_max_index)`: the desired span rounded
up by overhead and growth increment (i32 division truncates toward zero). -/
def get_new_length (s : UnboundedSizeDenseStore) (new_min_index new_max_index : Int) : Int :=
  let desired_length := new_max_index - new_min_index + 1
  (Int.tdiv (desired_length + s.array_length_overhead - 1) s.array_length_growth_increment + 1)
    * s.array_length_growth_increment

/-- `shift_counts(shift)`: block-move the live slice by `shift`, zero-fill the
vacated region, and move the offset the opposite way. -/
def shift_counts (s : UnboundedSizeDenseStore) (shift : Int) : UnboundedSizeDenseStore :=
  let min_array_index := s.min_index - s.offset
  let max_array_index := s.max_index - s.offset
  let c1 := array_copy s.counts min_array_index (min_array_index + shift)
    (max_array_index - min_array_index + 1)
  let c2 :=
    if 0 < shift then
      zeroFillN c1 min_array_index shift.toNat
    else
      zeroFillN c1 (max_array_index + 1 + shift) ((max_array_index + 1) - (max_array_index + 1 + shift)).toNat
  { s with counts := c2, offset := s.offset - shift }

/-- `center_counts(new_min_index, new_max_index)`: shift the live slice so its
middle aligns with the buffer middle, then install the new active range. -/
def center_counts (s : UnboundedSizeDenseStore) (new_min_index new_max_index : Int) :
    UnboundedSizeDenseStore :=
  let middle_index := new_min_index + Int.tdiv (new_max_index - new_min_index + 1) 2
  let shift := s.offset + Int.tdiv s.get_length 2 - middle_index
  let s1 := s.shift_counts shift
  { s1 with min_index := new_min_index, max_index := new_max_index }

/-- `adjust(new_min_index, new_max_index)`: delegates to `center_counts`. -/
def adjust (s : UnboundedSizeDenseStore) (new_min_index new_max_index : Int) :
    UnboundedSizeDenseStore :=
  s.center_counts new_min_index new_max_index

/-- `extend_range(new_min_index, new_max_index)`: merge the candidate range
with the active range, then allocate / grow / re-center as needed. -/
def extend_range (s : UnboundedSizeDenseStore) (new_min_index new_max_index : Int) :
    UnboundedSizeDenseStore :=
  let nm := min new_min_index s.min_index
  let nM := max new_max_index s.max_index
  if s.is_empty then
    let initial_length := s.get_new_length nm nM
    let s1 :=
      if s.get_length ≤ initial_length then
        { s with counts := vecResize s.counts initial_length.toNat }
      else s
    let s2 := { s1 with offset := nm, min_index := nm, max_index := nM }
    s2.adjust nm nM
  else if s.offset ≤ nm ∧ nM < s.offset + s.get_length then
    { s with min_index := nm, max_index := nM }
  else
    let new_length := s.get_new_length nm nM
    let s1 :=
      if s.get_length < new_length then
        { s with counts := vecResize s.counts new_length.toNat }
      else s
    s1.adjust nm nM

/-- `normalize(index)`: extend the range when `index` falls outside it, and
return the mutated store together with the buffer position `index - offset`. -/
def normalize (s : UnboundedSizeDenseStore) (index : Int) :
    UnboundedSizeDenseStore × Int :=
  if index < s.min_index ∨ s.max_index < index then
    let s' := s.extend_range index index
    (s', index - s'.offset)
  else
    (s, index - s.offset)

/-- `add(index, count)`: no-op when `count <= 0`; otherwise normalize and add
`count` at the resulting buffer position.  `serde::i32_to_usize_exact`
(external checked conversion) succeeds exactly on non-negative positions, and
its failure silently skips the write. -/
def add (s : UnboundedSizeDenseStore) (index : Int) (count : ℚ) :
    UnboundedSizeDenseStore :=
  if count ≤ 0 then s
  else
    let p := s.normalize index
    if 0 ≤ p.2 then
      { p.1 with counts := setQ p.1.counts p.2 (getQ p.1.counts p.2 + count) }
    else p.1

/-- `add_bin((index, weight))`: no-op only when the weight is exactly zero;
negative weights pass through and are added. -/
def add_bin (s : UnboundedSizeDenseStore) (bin : Int × ℚ) : UnboundedSizeDenseStore :=
  if bin.2 = 0 then s
  else
    let p := s.normalize bin.1
    if 0 ≤ p.2 then
      { p.1 with counts := setQ p.1.counts p.2 (getQ p.1.counts p.2 + bin.2) }
    else p.1

/-- `clear()`: zero-fill the buffer in place and reset range and offset to the
fresh-store sentinels; the buffer length is kept. -/
def clear (s : UnboundedSizeDenseStore) : UnboundedSizeDenseStore :=
  { s with counts := List.replicate s.counts.length 0
           max_index := i32Min
           min_index := i32Max
           offset := 0 }

/-- `get_min_index()`. -/
def get_min_index (s : UnboundedSizeDenseStore) : Int := s.min_index

/-- `get_max_index()`. -/
def get_max_index (s : UnboundedSizeDenseStore) : Int := s.max_index

/-- `get_offset()`. -/
def get_offset (s : UnboundedSizeDenseStore) : Int := s.offset

/-- `get_count(i)`: raw buffer read at position `i`. -/
def get_count (s : UnboundedSizeDenseStore) (i : Int) : ℚ :=
  getQ s.counts i

/-- `get_total_count_with_range(from_index, to_index)`: sum of the buffer
positions derived from the two bucket indices, clamped to the buffer. -/
def get_total_count_with_range (s : UnboundedSizeDenseStore) (from_index to_index : Int) : ℚ :=
  if s.is_empty then 0
  else
    let from_array_index := max (from_index - s.offset) 0
    let to_array_index := min (to_index - s.offset) (s.get_length - 1) + 1
    sumRangeN s.counts from_array_index (to_array_index - from_array_index).toNat

/-- `get_total_count()`: total over the active range. -/
def get_total_count (s : UnboundedSizeDenseStore) : ℚ :=
  s.get_total_count_with_range s.min_index s.max_index

/-- Loop of `get_descending_stream`: cursor starts at `max_index` and runs
while `index >= min_index`, so the fuel is the exact trip count
`(max_index - min_index + 1).toNat`.  A `none` is the Rust panic on an
out-of-range read. -/
def descLoopN (l : List ℚ) (off : Int) : Int → Nat → Option (List (Int × ℚ))
  | _, 0 => some []
  | index, n + 1 =>
    match streamRead l (index - off) with
    | none => none
    | some v =>
      match descLoopN l off (index - 1) n with
      | none => none
      | some rest => some (if 0 < v then (index, v) :: rest else rest)

/-- `get_descending_stream()`. -/
def get_descending_stream (s : UnboundedSizeDenseStore) : Option (List (Int × ℚ)) :=
  descLoopN s.counts s.offset s.max_index (s.max_index - s.min_index + 1).toNat

/-- Loop of `get_ascending_stream` as written in the source: the cursor starts
at `min_index`, the loop runs while `index <= max_index`, and the body
*decrements* the cursor.  Once entered, the condition therefore stays true
forever and the cursor walks below the window until the read
`counts[(index - offset) as usize]` panics.  The fuel bounds the iterations
until that out-of-bounds read; exhausted fuel also yields `none`, which is
sound because a cursor still `<= max_index` can never exit normally. -/
def ascLoopN (l : List ℚ) (off maxI : Int) : Int → Nat → Option (List (Int × ℚ))
  | index, 0 => if maxI < index then some [] else none
  | index, n + 1 =>
    if maxI < index then some []
    else
      match streamRead l (index - off) with
      | none => none
      | some v =>
        match ascLoopN l off maxI (index - 1) n with
        | none => none
        | some rest => some (if 0 < v then (index, v) :: rest else rest)

/-- `get_ascending_stream()`. -/
def get_ascending_stream (s : UnboundedSizeDenseStore) : Option (List (Int × ℚ)) :=
  ascLoopN s.counts s.offset s.max_index s.min_index ((s.min_index - s.offset + 1).toNat + 1)

/-- Loop of `foreach` over `min_index..max_index` (half-open): fuel is the
trip count, and the visited `(index, count)` pairs are collected in order. -/
def foreachLoopN (l : List ℚ) (off : Int) : Int → Nat → List (Int × ℚ)
  | _, 0 => []
  | i, n + 1 =>
    let v := getQ l (i - off)
    (if v ≠ 0 then [(i, v)] else []) ++ foreachLoopN l off (i + 1) n

/-- `foreach(acceptor)`, modelled as the list of `(index, count)` pairs passed
to the acceptor, in call order. -/
def foreachPairs (s : UnboundedSizeDenseStore) : List (Int × ℚ) :=
  if s.is_empty then []
  else
    let body := foreachLoopN s.counts s.offset s.min_index (s.max_index - s.min_index).toNat
    let last_count := getQ s.counts (s.max_index - s.offset)
    body ++ (if last_count ≠ 0 then [(s.max_index, last_count)] else [])

/-- The two growth constants are the ones installed by `new` and never
mutated afterwards. -/
def Params (s : UnboundedSizeDenseStore) : Prop :=
  s.array_length_overhead = 6 ∧ s.array_length_growth_increment = 64

instance (s : UnboundedSizeDenseStore) : Decidable s.Params :=
  inferInstanceAs (Decidable (_ ∧ _))

/-- The non-emptiness invariant of the claim: a non-empty store has
`min_index <= max_index` and both inside the window
`[offset, offset + length)`. -/
def Inv (s : UnboundedSizeDenseStore) : Prop :=
  ¬s.is_empty →
    s.min_index ≤ s.max_index ∧ s.offset ≤ s.min_index ∧
      s.max_index < s.offset + s.get_length

instance (s : UnboundedSizeDenseStore) : Decidable s.Inv := by
  unfold Inv; infer_instance

end UnboundedSizeDenseStore

/-- A store mutation, for stating properties of operation sequences. -/
inductive StoreOp where
  | opAdd : Int → ℚ → StoreOp
  | opAddBin : Int × ℚ → StoreOp
  | opClear : StoreOp
deriving DecidableEq

namespace UnboundedSizeDenseStore

/-- Run one mutation on the store. -/
def applyOp (s : UnboundedSizeDenseStore) : StoreOp → UnboundedSizeDenseStore
  | StoreOp.opAdd i c => s.add i c
  | StoreOp.opAddBin b => s.add_bin b
  | StoreOp.opClear => s.clear

/-- Run a sequence of mutations left to right. -/
def applyOps (s : UnboundedSizeDenseStore) (ops : List StoreOp) : UnboundedSizeDenseStore :=
  ops.foldl applyOp s

/-- An operation that actually inserts something: an `add` with positive count
or an `add_bin` with non-zero weight. -/
def successfulInsertion : StoreOp → Prop
  | StoreOp.opAdd _ c => 0 < c
  | StoreOp.opAddBin b => b.2 ≠ 0
  | StoreOp.opClear => False

instance (op : StoreOp) : Decidable (successfulInsertion op) := by
  unfold successfulInsertion
  cases op <;> infer_instance

end UnboundedSizeDenseStore

/-! ### Buffer access lemmas -/

lemma length_setQ (l : List ℚ) (i : Int) (v : ℚ) : (setQ l i v).length = l.length := by
  unfold setQ; split <;> simp

lemma getQ_eq (l : List ℚ) (i : Int) (h : 0 ≤ i) : getQ l i = (l[i.toNat]?).getD 0 := by
  unfold getQ; rw [if_pos h, List.getD_eq_getElem?_getD]

lemma getQ_of_neg (l : List ℚ) (i : Int) (h : i < 0) : getQ l i = 0 := by
  unfold getQ; rw [if_neg (by omega)]

lemma getQ_of_le (l : List ℚ) (i : Int) (h : (l.length : Int) ≤ i) : getQ l i = 0 := by
  rcases Int.lt_or_le i 0 with h0 | h0
  · exact getQ_of_neg l i h0
  · rw [getQ_eq l i h0, List.getElem?_eq_none (by omega)]; rfl

lemma getQ_setQ_self (l : List ℚ) (i : Int) (v : ℚ) (h0 : 0 ≤ i)
    (h1 : i < (l.length : Int)) : getQ (setQ l i v) i = v := by
  unfold setQ
  rw [if_pos h0, getQ_eq _ _ h0, List.getElem?_set, if_pos rfl, if_pos (by omega)]; rfl

lemma getQ_setQ_ne (l : List ℚ) (i j : Int) (v : ℚ) (h : j ≠ i) :
    getQ (setQ l i v) j = getQ l j := by
  unfold setQ
  by_cases h0 : 0 ≤ i
  · rw [if_pos h0]
    rcases Int.lt_or_le j 0 with hj | hj
    · rw [getQ_of_neg _ _ hj, getQ_of_neg _ _ hj]
    · rw [getQ_eq _ _ hj, getQ_eq _ _ hj, List.getElem?_set_ne (by omega)]
  · rw [if_neg h0]

lemma getQ_setQ_zero_self (l : List ℚ) (i : Int) : getQ (setQ l i 0) i = 0 := by
  by_cases h0 : 0 ≤ i
  · rcases Int.lt_or_le i (l.length : Int) with h1 | h1
    · exact getQ_setQ_self l i 0 h0 h1
    · rw [getQ_of_le _ _ (by rw [length_setQ]; omega)]
  · rw [getQ_of_neg _ _ (by omega)]

lemma vecResize_eq (l : List ℚ) (n : Nat) (h : l.length ≤ n) :
    vecResize l n = l ++ List.replicate (n - l.length) 0 := by
  unfold vecResize
  split
  · have hn : n = l.length := by omega
    subst hn
    simp
  · rfl

lemma length_vecResize (l : List ℚ) (n : Nat) (h : l.length ≤ n) :
    (vecResize l n).length = n := by
  rw [vecResize_eq l n h]; simp; omega

lemma getQ_vecResize (l : List ℚ) (n : Nat) (hn : l.length ≤ n) (j : Int) :
    getQ (vecResize l n) j = if j < (l.length : Int) then getQ l j else 0 := by
  rw [vecResize_eq l n hn]
  rcases Int.lt_or_le j 0 with hj | hj
  · rw [getQ_of_neg _ _ hj, getQ_of_neg _ _ hj, if_pos (by omega)]
  · rw [getQ_eq _ _ hj, getQ_eq _ _ hj]
    rcases Nat.lt_or_ge j.toNat l.length with hlt | hge
    · rw [List.getElem?_append_left hlt, if_pos (by omega)]
    · rw [List.getElem?_append_right hge, if_neg (by omega), List.getElem?_replicate]
      split <;> rfl

lemma getQ_replicate (n : Nat) (j : Int) : getQ (List.replicate n (0 : ℚ)) j = 0 := by
  rcases Int.lt_or_le j 0 with hj | hj
  · exact getQ_of_neg _ _ hj
  · rw [getQ_eq _ _ hj, List.getElem?_replicate]
    split <;> rfl

lemma length_zeroFillN (l : List ℚ) (a : Int) (n : Nat) :
    (zeroFillN l a n).length = l.length := by
  induction n generalizing l a with
  | zero => rfl
  | succ n ih => rw [zeroFillN, ih, length_setQ]

lemma getQ_zeroFillN (l : List ℚ) (a : Int) (n : Nat) (j : Int) :
    getQ (zeroFillN l a n) j = if a ≤ j ∧ j < a + n then 0 else getQ l j := by
  induction n generalizing l a with
  | zero =>
    rw [zeroFillN, if_neg (by omega)]
  | succ n ih =>
    rw [zeroFillN, ih]
    by_cases hj : a + 1 ≤ j ∧ j < a + 1 + n
    · rw [if_pos hj, if_pos (by omega)]
    · rw [if_neg hj]
      by_cases hja : j = a
      · subst hja
        rw [getQ_setQ_zero_self, if_pos (by omega)]
      · rw [getQ_setQ_ne _ _ _ _ hja, if_neg (by omega)]

lemma length_copyBackN (src dest : Int) (l : List ℚ) (off : Int) (n : Nat) :
    (copyBackN src dest l off n).length = l.length := by
  induction n generalizing l off with
  | zero => rfl
  | succ n ih => rw [copyBackN, ih, length_setQ]

lemma length_copyFwdN (src dest : Int) (l : List ℚ) (off : Int) (n : Nat) :
    (copyFwdN src dest l off n).length = l.length := by
  induction n generalizing l off with
  | zero => rfl
  | succ n ih => rw [copyFwdN, ih, length_setQ]

lemma length_array_copy (l : List ℚ) (src dest len : Int) :
    (array_copy l src dest len).length = l.length := by
  unfold array_copy
  split
  · rw [length_copyBackN]
  · split
    · rw [length_copyFwdN]
    · rfl

/-! ### Correctness of the two copy loops (overlap safety) -/

lemma copyBackN_spec (src dest : Int) (hsd : src < dest) (hs : 0 ≤ src) :
    ∀ (n : Nat) (l : List ℚ), dest + n ≤ (l.length : Int) →
      (∀ k : Int, 0 ≤ k → k < n →
        getQ (copyBackN src dest l ((n : Int) - 1) n) (dest + k) = getQ l (src + k)) ∧
      (∀ j : Int, j < dest ∨ dest + n ≤ j →
        getQ (copyBackN src dest l ((n : Int) - 1) n) j = getQ l j) := by
  intro n
  induction n with
  | zero =>
    intro l _
    refine ⟨?_, fun j _ => rfl⟩
    intro k hk0 hk1
    exfalso
    push_cast at hk1
    omega
  | succ n ih =>
    intro l hlen
    set l1 := setQ l (dest + n) (getQ l (src + n)) with hl1
    have hlen1 : (l1.length : Int) = l.length := by rw [hl1, length_setQ]
    have hoff : ((n + 1 : Nat) : Int) - 1 = (n : Int) := by push_cast; ring
    have hrec : copyBackN src dest l (((n + 1 : Nat) : Int) - 1) (n + 1)
        = copyBackN src dest l1 ((n : Int) - 1) n := by
      rw [hoff, copyBackN]
    obtain ⟨ihcopy, ihframe⟩ := ih l1 (by omega)
    constructor
    · intro k hk0 hk1
      rw [hrec]
      rcases Int.lt_or_le k n with hkn | hkn
      · rw [ihcopy k hk0 (by omega), hl1, getQ_setQ_ne _ _ _ _ (by omega)]
      · have hk : k = (n : Int) := by push_cast at hk1; omega
        subst hk
        rw [ihframe (dest + n) (by omega), hl1,
          getQ_setQ_self _ _ _ (by omega) (by push_cast at hlen; omega)]
    · intro j hj
      rw [hrec, ihframe j (by push_cast at hj ⊢; omega), hl1,
        getQ_setQ_ne _ _ _ _ (by push_cast at hj; omega)]

lemma copyFwdN_spec (src dest : Int) (hsd : dest < src) :
    ∀ (n : Nat) (l : List ℚ) (off : Int), 0 ≤ dest + off →
      src + off + n ≤ (l.length : Int) →
      (∀ k : Int, off ≤ k → k < off + n →
        getQ (copyFwdN src dest l off n) (dest + k) = getQ l (src + k)) ∧
      (∀ j : Int, j < dest + off ∨ dest + off + n ≤ j →
        getQ (copyFwdN src dest l off n) j = getQ l j) := by
  intro n
  induction n with
  | zero =>
    intro l off _ _
    refine ⟨?_, fun j _ => rfl⟩
    intro k hk0 hk1
    exfalso
    push_cast at hk1
    omega
  | succ n ih =>
    intro l off hdo hlen
    set l1 := setQ l (dest + off) (getQ l (src + off)) with hl1
    have hlen1 : (l1.length : Int) = l.length := by rw [hl1, length_setQ]
    have hrec : copyFwdN src dest l off (n + 1) = copyFwdN src dest l1 (off + 1) n := by
      rw [copyFwdN]
    obtain ⟨ihcopy, ihframe⟩ := ih l1 (off + 1) (by omega) (by push_cast at hlen ⊢; omega)
    constructor
    · intro k hk0 hk1
      rw [hrec]
      rcases Int.lt_or_le off k with hkn | hkn
      · rw [ihcopy k (by omega) (by push_cast at hk1 ⊢; omega), hl1,
          getQ_setQ_ne _ _ _ _ (by omega)]
      · have hk : k = off := by omega
        subst hk
        rw [ihframe (dest + k) (by omega), hl1,
          getQ_setQ_self _ _ _ (by omega) (by push_cast at hlen; omega)]
    · intro j hj
      rw [hrec, ihframe j (by push_cast at hj ⊢; omega), hl1,
        getQ_setQ_ne _ _ _ _ (by push_cast at hj; omega)]

lemma array_copy_spec (l : List ℚ) (src dest len : Int) (hlen : 0 ≤ len)
    (hs0 : 0 ≤ src) (hs1 : src + len ≤ (l.length : Int))
    (hd0 : 0 ≤ dest) (hd1 : dest + len ≤ (l.length : Int)) :
    (∀ k : Int, 0 ≤ k → k < len →
      getQ (array_copy l src dest len) (dest + k) = getQ l (src + k)) ∧
    (∀ j : Int, j < dest ∨ dest + len ≤ j →
      getQ (array_copy l src dest len) j = getQ l j) := by
  have hcast : ((len.toNat : Nat) : Int) = len := Int.toNat_of_nonneg hlen
  unfold array_copy
  split
  · rename_i hsd
    obtain ⟨hcopy, hframe⟩ := copyBackN_spec src dest hsd hs0 len.toNat l (by omega)
    rw [hcast] at hcopy hframe
    exact ⟨hcopy, hframe⟩
  · split
    · rename_i hsd
      obtain ⟨hcopy, hframe⟩ :=
        copyFwdN_spec src dest hsd len.toNat l 0 (by omega) (by omega)
      rw [hcast] at hcopy hframe
      constructor
      · intro k hk0 hk1
        exact hcopy k (by omega) (by omega)
      · intro j hj
        exact hframe j (by omega)
    · rename_i h1 h2
      have heq : src = dest := by omega
      subst heq
      exact ⟨fun k _ _ => rfl, fun j _ => rfl⟩

/-! ### Well-formedness invariants -/

namespace UnboundedSizeDenseStore

lemma tdiv_nonneg_eq (a b : Int) (ha : 0 ≤ a) (hb : 0 ≤ b) :
    Int.tdiv a b = a / b := by
  rcases a with a | a
  · rcases b with b | b
    · rfl
    · simp at hb
  · simp at ha

lemma get_new_length_spec (s : UnboundedSizeDenseStore) (nm nM : Int)
    (hp : s.Params) (h : nm ≤ nM) :
    nM - nm + 1 ≤ s.get_new_length nm nM ∧ 64 ∣ s.get_new_length nm nM ∧
      64 ≤ s.get_new_length nm nM := by
  obtain ⟨ho, hg⟩ := hp
  simp only [get_new_length, ho, hg]
  rw [tdiv_nonneg_eq _ _ (by omega) (by omega)]
  have hq : (nM - nm + 1 + 6 - 1) / 64 * 64 ≥ nM - nm + 1 + 6 - 1 - 63 := by omega
  have hq0 : 0 ≤ (nM - nm + 1 + 6 - 1) / 64 := Int.ediv_nonneg (by omega) (by omega)
  refine ⟨by omega, ⟨(nM - nm + 1 + 6 - 1) / 64 + 1, by ring⟩, by omega⟩

lemma shift_counts_fields (s : UnboundedSizeDenseStore) (shift : Int) :
    (s.shift_counts shift).counts.length = s.counts.length ∧
    (s.shift_counts shift).offset = s.offset - shift ∧
    (s.shift_counts shift).min_index = s.min_index ∧
    (s.shift_counts shift).max_index = s.max_index ∧
    (s.shift_counts shift).array_length_overhead = s.array_length_overhead ∧
    (s.shift_counts shift).array_length_growth_increment = s.array_length_growth_increment := by
  unfold shift_counts
  refine ⟨?_, rfl, rfl, rfl, rfl, rfl⟩
  split <;> rw [length_zeroFillN, length_array_copy]

lemma centering_arith (nm d L : Int) (h1 : 1 ≤ d) (hd : d ≤ L) (hL : 0 ≤ L) :
    nm + Int.tdiv d 2 - Int.tdiv L 2 ≤ nm ∧
      nm + d - 1 < nm + Int.tdiv d 2 - Int.tdiv L 2 + L := by
  rw [tdiv_nonneg_eq d 2 (by omega) (by omega), tdiv_nonneg_eq L 2 hL (by omega)]
  omega

lemma center_counts_fields (s : UnboundedSizeDenseStore) (nm nM : Int)
    (h1 : nm ≤ nM) (hd : nM - nm + 1 ≤ s.get_length) :
    (s.center_counts nm nM).counts.length = s.counts.length ∧
    (s.center_counts nm nM).min_index = nm ∧
    (s.center_counts nm nM).max_index = nM ∧
    (s.center_counts nm nM).offset ≤ nm ∧
    nM < (s.center_counts nm nM).offset + s.get_length ∧
    (s.center_counts nm nM).array_length_overhead = s.array_length_overhead ∧
    (s.center_counts nm nM).array_length_growth_increment = s.array_length_growth_increment := by
  have hL : (0 : Int) ≤ s.get_length := Int.ofNat_nonneg _
  obtain ⟨ha1, ha2⟩ := centering_arith nm (nM - nm + 1) s.get_length (by omega) hd hL
  obtain ⟨hlen, hoff, -, -, hov, hgr⟩ := shift_counts_fields s
    (s.offset + Int.tdiv s.get_length 2 - (nm + Int.tdiv (nM - nm + 1) 2))
  have ec : (s.center_counts nm nM).counts =
      (s.shift_counts (s.offset + Int.tdiv s.get_length 2 -
        (nm + Int.tdiv (nM - nm + 1) 2))).counts := rfl
  have eo : (s.center_counts nm nM).offset =
      (s.shift_counts (s.offset + Int.tdiv s.get_length 2 -
        (nm + Int.tdiv (nM - nm + 1) 2))).offset := rfl
  have eov : (s.center_counts nm nM).array_length_overhead =
      (s.shift_counts (s.offset + Int.tdiv s.get_length 2 -
        (nm + Int.tdiv (nM - nm + 1) 2))).array_length_overhead := rfl
  have egr : (s.center_counts nm nM).array_length_growth_increment =
      (s.shift_counts (s.offset + Int.tdiv s.get_length 2 -
        (nm + Int.tdiv (nM - nm + 1) 2))).array_length_growth_increment := rfl
  refine ⟨by rw [ec, hlen], rfl, rfl, by rw [eo, hoff]; omega, by rw [eo, hoff]; omega,
    by rw [eov, hov], by rw [egr, hgr]⟩

lemma adjust_eq (s : UnboundedSizeDenseStore) (a b : Int) :
    s.adjust a b = s.center_counts a b := rfl

lemma resize_length (l : List ℚ) (t : Int) (hge : (l.length : Int) ≤ t) :
    ((vecResize l t.toNat).length : Int) = t ∧ l.length ≤ (vecResize l t.toNat).length := by
  have h := length_vecResize l t.toNat (by omega)
  omega

lemma extend_range_spec (s : UnboundedSizeDenseStore) (a b : Int) (hp : s.Params)
    (_hinv : s.Inv) (hab : a ≤ b) :
    (s.extend_range a b).Params ∧
    (s.extend_range a b).min_index = min a s.min_index ∧
    (s.extend_range a b).max_index = max b s.max_index ∧
    (s.extend_range a b).offset ≤ min a s.min_index ∧
    max b s.max_index < (s.extend_range a b).offset + (s.extend_range a b).get_length ∧
    s.counts.length ≤ (s.extend_range a b).counts.length ∧
    (64 ∣ s.counts.length → 64 ∣ (s.extend_range a b).counts.length) := by
  have hnm : min a s.min_index ≤ max b s.max_index :=
    le_trans (min_le_left _ _) (le_trans hab (le_max_left _ _))
  obtain ⟨g1, g2, g3⟩ := get_new_length_spec s (min a s.min_index) (max b s.max_index) hp hnm
  obtain ⟨k64, hk64⟩ := g2
  by_cases he : s.is_empty
  · unfold extend_range
    simp only [if_pos he]
    by_cases hc : s.get_length ≤ s.get_new_length (min a s.min_index) (max b s.max_index)
    · simp only [if_pos hc]
      obtain ⟨hrl, hrmono⟩ := resize_length s.counts
        (s.get_new_length (min a s.min_index) (max b s.max_index)) hc
      obtain ⟨c1, c2, c3, c4, c5, c6, c7⟩ := center_counts_fields
        { s with
            counts := vecResize s.counts
              (s.get_new_length (min a s.min_index) (max b s.max_index)).toNat
            offset := min a s.min_index
            min_index := min a s.min_index
            max_index := max b s.max_index }
        (min a s.min_index) (max b s.max_index) hnm
        (by show _ ≤ ((vecResize _ _).length : Int); omega)
      rw [adjust_eq]
      refine ⟨⟨?_, ?_⟩, c2, c3, c4, ?_, ?_, ?_⟩
      · rw [c6]; exact hp.1
      · rw [c7]; exact hp.2
      · unfold get_length at c5 ⊢
        rw [c1]
        exact c5
      · rw [c1]; exact hrmono
      · intro hdvd
        rw [c1]
        show (64 : Nat) ∣ (vecResize _ _).length
        omega
    · simp only [if_neg hc]
      have hlt : s.get_new_length (min a s.min_index) (max b s.max_index) < s.get_length := by
        omega
      obtain ⟨c1, c2, c3, c4, c5, c6, c7⟩ := center_counts_fields
        { s with
            offset := min a s.min_index
            min_index := min a s.min_index
            max_index := max b s.max_index }
        (min a s.min_index) (max b s.max_index) hnm
        (by show _ ≤ (s.counts.length : Int); unfold get_length at hlt; omega)
      rw [adjust_eq]
      refine ⟨⟨?_, ?_⟩, c2, c3, c4, ?_, ?_, ?_⟩
      · rw [c6]; exact hp.1
      · rw [c7]; exact hp.2
      · unfold get_length at c5 ⊢
        rw [c1]
        exact c5
      · rw [c1]
      · intro hdvd
        rw [c1]
        exact hdvd
  · unfold extend_range
    simp only [if_neg he]
    by_cases hfit : s.offset ≤ min a s.min_index ∧
        max b s.max_index < s.offset + s.get_length
    · simp only [if_pos hfit]
      exact ⟨hp, trivial, trivial, hfit.1, hfit.2, le_refl _, fun h => h⟩
    · simp only [if_neg hfit]
      by_cases hc : s.get_length < s.get_new_length (min a s.min_index) (max b s.max_index)
      · simp only [if_pos hc]
        obtain ⟨hrl, hrmono⟩ := resize_length s.counts
          (s.get_new_length (min a s.min_index) (max b s.max_index)) (le_of_lt hc)
        obtain ⟨c1, c2, c3, c4, c5, c6, c7⟩ := center_counts_fields
          { s with
              counts := vecResize s.counts
                (s.get_new_length (min a s.min_index) (max b s.max_index)).toNat }
          (min a s.min_index) (max b s.max_index) hnm
          (by show _ ≤ ((vecResize _ _).length : Int); omega)
        rw [adjust_eq]
        refine ⟨⟨?_, ?_⟩, c2, c3, c4, ?_, ?_, ?_⟩
        · rw [c6]; exact hp.1
        · rw [c7]; exact hp.2
        · unfold get_length at c5 ⊢
          rw [c1]
          exact c5
        · rw [c1]; exact hrmono
        · intro hdvd
          rw [c1]
          show (64 : Nat) ∣ (vecResize _ _).length
          omega
      · simp only [if_neg hc]
        obtain ⟨c1, c2, c3, c4, c5, c6, c7⟩ := center_counts_fields s
          (min a s.min_index) (max b s.max_index) hnm (by unfold get_length at hc ⊢; omega)
        rw [adjust_eq]
        refine ⟨⟨?_, ?_⟩, c2, c3, c4, ?_, ?_, ?_⟩
        · rw [c6]; exact hp.1
        · rw [c7]; exact hp.2
        · unfold get_length at c5 ⊢
          rw [c1]
          exact c5
        · rw [c1]
        · intro hdvd
          rw [c1]
          exact hdvd

lemma normalize_spec (s : UnboundedSizeDenseStore) (index : Int) (hp : s.Params)
    (hinv : s.Inv) :
    (s.normalize index).1.Params ∧ (s.normalize index).1.Inv ∧
    ¬(s.normalize index).1.is_empty ∧
    (s.normalize index).1.min_index ≤ index ∧ index ≤ (s.normalize index).1.max_index ∧
    (s.normalize index).2 = index - (s.normalize index).1.offset ∧
    0 ≤ (s.normalize index).2 ∧
    (s.normalize index).2 < (s.normalize index).1.get_length ∧
    s.counts.length ≤ (s.normalize index).1.counts.length ∧
    (64 ∣ s.counts.length → 64 ∣ (s.normalize index).1.counts.length) := by
  unfold normalize
  by_cases hout : index < s.min_index ∨ s.max_index < index
  · simp only [if_pos hout]
    obtain ⟨e1, e2, e3, e4, e5, e6, e7⟩ :=
      extend_range_spec s index index hp hinv (le_refl index)
    have hmin : (s.extend_range index index).min_index ≤ index := by
      rw [e2]; exact min_le_left _ _
    have hmax : index ≤ (s.extend_range index index).max_index := by
      rw [e3]; exact le_max_left _ _
    have hne : ¬(s.extend_range index index).is_empty := by
      unfold is_empty; omega
    have hwin : (s.extend_range index index).max_index <
        (s.extend_range index index).offset + (s.extend_range index index).get_length := by
      rw [e3]; exact e5
    have hoffmin : (s.extend_range index index).offset ≤
        (s.extend_range index index).min_index := by
      rw [e2]; exact e4
    refine ⟨e1, fun _ => ⟨by omega, hoffmin, hwin⟩, hne, hmin, hmax, ?_, ?_, ?_, e6, e7⟩
    · trivial
    · show (0 : Int) ≤ index - (s.extend_range index index).offset
      omega
    · show index - (s.extend_range index index).offset < _
      omega
  · simp only [if_neg hout]
    push_neg at hout
    have hne : ¬s.is_empty := by unfold is_empty; omega
    obtain ⟨i1, i2, i3⟩ := hinv hne
    refine ⟨hp, hinv, hne, hout.1, hout.2, ?_, ?_, ?_, le_refl _, fun h => h⟩
    · trivial
    · show (0 : Int) ≤ index - s.offset
      omega
    · show index - s.offset < s.get_length
      omega

lemma add_spec (s : UnboundedSizeDenseStore) (index : Int) (count : ℚ) (hp : s.Params)
    (hinv : s.Inv) :
    (s.add index count).Params ∧ (s.add index count).Inv ∧
    s.counts.length ≤ (s.add index count).counts.length ∧
    (64 ∣ s.counts.length → 64 ∣ (s.add index count).counts.length) ∧
    (0 < count → ¬(s.add index count).is_empty) := by
  unfold add
  by_cases hc : count ≤ 0
  · simp only [if_pos hc]
    exact ⟨hp, hinv, le_refl _, fun h => h, fun h0 => absurd hc (not_le.mpr h0)⟩
  · simp only [if_neg hc]
    obtain ⟨n1, n2, n3, n4, n5, n6, n7, n8, n9, n10⟩ := normalize_spec s index hp hinv
    by_cases hpos : 0 ≤ (s.normalize index).2
    · simp only [if_pos hpos]
      have hlen : (setQ (s.normalize index).1.counts (s.normalize index).2
          (getQ (s.normalize index).1.counts (s.normalize index).2 + count)).length
          = (s.normalize index).1.counts.length := length_setQ _ _ _
      refine ⟨n1, fun _ => ?_, by omega, fun h => by rw [hlen]; exact n10 h, fun _ => n3⟩
      obtain ⟨i1, i2, i3⟩ := n2 n3
      refine ⟨i1, i2, ?_⟩
      unfold get_length at i3 ⊢
      rw [hlen]
      exact i3
    · simp only [if_neg hpos]
      exact ⟨n1, n2, n9, n10, fun _ => n3⟩

lemma add_bin_spec (s : UnboundedSizeDenseStore) (bin : Int × ℚ) (hp : s.Params)
    (hinv : s.Inv) :
    (s.add_bin bin).Params ∧ (s.add_bin bin).Inv ∧
    s.counts.length ≤ (s.add_bin bin).counts.length ∧
    (64 ∣ s.counts.length → 64 ∣ (s.add_bin bin).counts.length) ∧
    (bin.2 ≠ 0 → ¬(s.add_bin bin).is_empty) := by
  unfold add_bin
  by_cases hc : bin.2 = 0
  · simp only [if_pos hc]
    exact ⟨hp, hinv, le_refl _, fun h => h, fun h0 => absurd hc h0⟩
  · simp only [if_neg hc]
    obtain ⟨n1, n2, n3, n4, n5, n6, n7, n8, n9, n10⟩ := normalize_spec s bin.1 hp hinv
    by_cases hpos : 0 ≤ (s.normalize bin.1).2
    · simp only [if_pos hpos]
      have hlen : (setQ (s.normalize bin.1).1.counts (s.normalize bin.1).2
          (getQ (s.normalize bin.1).1.counts (s.normalize bin.1).2 + bin.2)).length
          = (s.normalize bin.1).1.counts.length := length_setQ _ _ _
      refine ⟨n1, fun _ => ?_, by omega, fun h => by rw [hlen]; exact n10 h, fun _ => n3⟩
      obtain ⟨i1, i2, i3⟩ := n2 n3
      refine ⟨i1, i2, ?_⟩
      unfold get_length at i3 ⊢
      rw [hlen]
      exact i3
    · simp only [if_neg hpos]
      exact ⟨n1, n2, n9, n10, fun _ => n3⟩

lemma clear_spec (s : UnboundedSizeDenseStore) (hp : s.Params) :
    (s.clear).Params ∧ (s.clear).Inv ∧ (s.clear).counts.length = s.counts.length ∧
    (s.clear).is_empty := by
  refine ⟨hp, fun hne => absurd ?_ hne, by simp [clear], by unfold clear is_empty i32Min i32Max; norm_num⟩
  unfold clear is_empty i32Min i32Max
  norm_num

lemma store_new_spec : store_new.Params ∧ store_new.Inv ∧ store_new.counts.length = 0 := by
  refine ⟨⟨rfl, rfl⟩, fun hne => absurd ?_ hne, rfl⟩
  unfold store_new is_empty i32Min i32Max
  norm_num

lemma add_in_range_eq (s : UnboundedSizeDenseStore) (index : Int) (count : ℚ)
    (hinv : s.Inv) (hne : ¬s.is_empty) (h1 : s.min_index ≤ index)
    (h2 : index ≤ s.max_index) (hc : ¬count ≤ 0) :
    s.add index count =
      { s with counts := (setQ s.counts (index - s.offset)
          (getQ s.counts (index - s.offset) + count)) } := by
  obtain ⟨i1, i2, i3⟩ := hinv hne
  unfold add normalize
  simp only [if_neg hc, if_neg (show ¬(index < s.min_index ∨ s.max_index < index) by omega)]
  rw [if_pos (show (0 : Int) ≤ index - s.offset by omega)]

lemma add_bin_in_range_eq (s : UnboundedSizeDenseStore) (bin : Int × ℚ)
    (hinv : s.Inv) (hne : ¬s.is_empty) (h1 : s.min_index ≤ bin.1)
    (h2 : bin.1 ≤ s.max_index) (hc : ¬bin.2 = 0) :
    s.add_bin bin =
      { s with counts := (setQ s.counts (bin.1 - s.offset)
          (getQ s.counts (bin.1 - s.offset) + bin.2)) } := by
  obtain ⟨i1, i2, i3⟩ := hinv hne
  unfold add_bin normalize
  simp only [if_neg hc, if_neg (show ¬(bin.1 < s.min_index ∨ s.max_index < bin.1) by omega)]
  rw [if_pos (show (0 : Int) ≤ bin.1 - s.offset by omega)]

end UnboundedSizeDenseStore

namespace UnboundedSizeDenseStore

/-! ### Claim theorems -/

/-- C1: `array_copy(src_pos, dest_pos, length)` is an overlap-safe in-place
block move: whenever both the source range `[src_pos, src_pos + length)` and
the destination range `[dest_pos, dest_pos + length)` lie inside the buffer
and `length >= 0`, afterwards every destination position `dest_pos + k` holds
the value the source position `src_pos + k` held before, regardless of how the
two ranges overlap, and every position outside the destination range is
unchanged (the buffer length also stays the same). -/
theorem array_copy_block_move_correct (l : List ℚ) (src dest len : Int)
    (hlen : 0 ≤ len) (hs0 : 0 ≤ src) (hs1 : src + len ≤ (l.length : Int))
    (hd0 : 0 ≤ dest) (hd1 : dest + len ≤ (l.length : Int)) :
    (array_copy l src dest len).length = l.length ∧
    (∀ k : Int, 0 ≤ k → k < len →
      getQ (array_copy l src dest len) (dest + k) = getQ l (src + k)) ∧
    (∀ j : Int, j < dest ∨ dest + len ≤ j →
      getQ (array_copy l src dest len) j = getQ l j) :=
  ⟨length_array_copy l src dest len,
    (array_copy_spec l src dest len hlen hs0 hs1 hd0 hd1).1,
    (array_copy_spec l src dest len hlen hs0 hs1 hd0 hd1).2⟩

theorem array_copy_block_move_correct_witness :
    (array_copy [1, 2, 3, 4, 5] 0 2 3).length = ([1, 2, 3, 4, 5] : List ℚ).length ∧
    (∀ k : Int, 0 ≤ k → k < 3 →
      getQ (array_copy [1, 2, 3, 4, 5] 0 2 3) (2 + k) = getQ [1, 2, 3, 4, 5] (0 + k)) ∧
    (∀ j : Int, j < 2 ∨ 2 + 3 ≤ j →
      getQ (array_copy [1, 2, 3, 4, 5] 0 2 3) j = getQ [1, 2, 3, 4, 5] j) :=
  array_copy_block_move_correct [1, 2, 3, 4, 5] 0 2 3 (by decide) (by decide)
    (by decide) (by decide) (by decide)

/-- C2 (code bug): on the store holding a single count at bucket 0, the
descending stream terminates with `[(0, 1)]`, but the ascending stream, whose
loop decrements its cursor from `min_index` while testing
`index <= max_index`, walks below the window and panics on an out-of-bounds
read (`none`) instead of returning the reverse `[(0, 1)]`. -/
theorem ascending_stream_panics_on_nonempty :
    (store_new.add 0 1).get_descending_stream = some [(0, 1)] ∧
    (store_new.add 0 1).get_ascending_stream = none := by
  decide

/-- C3: the non-emptiness invariant `Inv` — a non-empty store has
`min_index <= max_index` with both inside the window
`[offset, offset + length)` — holds for `new` and is preserved by `add`,
`add_bin` and `clear` (together with the auxiliary invariant `Params` fixing
the two growth constants, which the proof carries alongside). -/
theorem nonempty_invariant_preserved :
    (store_new.Params ∧ store_new.Inv) ∧
    (∀ (s : UnboundedSizeDenseStore) (index : Int) (count : ℚ),
      s.Params ∧ s.Inv → (s.add index count).Params ∧ (s.add index count).Inv) ∧
    (∀ (s : UnboundedSizeDenseStore) (bin : Int × ℚ),
      s.Params ∧ s.Inv → (s.add_bin bin).Params ∧ (s.add_bin bin).Inv) ∧
    (∀ s : UnboundedSizeDenseStore,
      s.Params ∧ s.Inv → s.clear.Params ∧ s.clear.Inv) := by
  refine ⟨⟨store_new_spec.1, store_new_spec.2.1⟩, ?_, ?_, ?_⟩
  · intro s index count ⟨hp, hinv⟩
    obtain ⟨a1, a2, -, -, -⟩ := add_spec s index count hp hinv
    exact ⟨a1, a2⟩
  · intro s bin ⟨hp, hinv⟩
    obtain ⟨a1, a2, -, -, -⟩ := add_bin_spec s bin hp hinv
    exact ⟨a1, a2⟩
  · intro s ⟨hp, hinv⟩
    obtain ⟨a1, a2, -, -⟩ := clear_spec s hp
    exact ⟨a1, a2⟩

theorem nonempty_invariant_preserved_witness :
    (store_new.add 5 1).Params ∧ (store_new.add 5 1).Inv :=
  nonempty_invariant_preserved.2.1 store_new 5 1 ⟨by decide, by decide⟩

/-- C4: for `newMin <= newMax` with an `i32`-representable span,
`get_new_length(newMin, newMax)` is exactly the specification formula
`ceil((desiredLength + overhead) / growthIncrement) * growthIncrement` with
`desiredLength = newMax - newMin + 1`, overhead 6, increment 64. -/
theorem get_new_length_rounds_up (s : UnboundedSizeDenseStore)
    (newMin newMax : Int) (hp : s.Params) (h : newMin ≤ newMax)
    (hrep : newMax - newMin + 1 ≤ 2147483647) :
    s.get_new_length newMin newMax = specNewLength (newMax - newMin + 1) := by
  obtain ⟨ho, hg⟩ := hp
  simp only [get_new_length, specNewLength, specCeilDiv, ho, hg]
  rw [tdiv_nonneg_eq _ _ (by omega) (by omega)]
  omega

theorem get_new_length_rounds_up_witness :
    store_new.get_new_length 0 100 = specNewLength 101 :=
  get_new_length_rounds_up store_new 0 100 (by decide) (by decide) (by decide)

/-- C7 (code bug): after `add(5, 1.0)`, `add(5, 2.0)`, `add(-3, 1.0)` on a
fresh store, `get_min_index`, `get_max_index` and `get_total_count` are as the
scenario states and the descending stream is `[(5, 3), (-3, 1)]`, but the
ascending stream — which the scenario requires to be `[(-3, 1), (5, 3)]` —
panics (`none`) because its loop decrements the cursor from `min_index`. -/
theorem scenario_a_results :
    (((store_new.add 5 1).add 5 2).add (-3) 1).get_min_index = -3 ∧
    (((store_new.add 5 1).add 5 2).add (-3) 1).get_max_index = 5 ∧
    (((store_new.add 5 1).add 5 2).add (-3) 1).get_total_count = 4 ∧
    (((store_new.add 5 1).add 5 2).add (-3) 1).get_descending_stream
      = some [(5, 3), (-3, 1)] ∧
    (((store_new.add 5 1).add 5 2).add (-3) 1).get_ascending_stream = none := by
  decide

/-- C10: adding a positive count at an index already inside the active range
of a well-formed non-empty store performs no growth and no shift: `offset`,
buffer length, `min_index` and `max_index` are unchanged, position
`index - offset` grows by exactly `count`, and every other buffer position is
untouched. -/
theorem add_in_range_frame (s : UnboundedSizeDenseStore) (index : Int) (count : ℚ)
    (hinv : s.Inv) (hne : ¬s.is_empty) (h1 : s.min_index ≤ index)
    (h2 : index ≤ s.max_index) (hc : 0 < count) :
    (s.add index count).offset = s.offset ∧
    (s.add index count).counts.length = s.counts.length ∧
    (s.add index count).min_index = s.min_index ∧
    (s.add index count).max_index = s.max_index ∧
    getQ (s.add index count).counts (index - s.offset)
      = getQ s.counts (index - s.offset) + count ∧
    (∀ j : Int, j ≠ index - s.offset →
      getQ (s.add index count).counts j = getQ s.counts j) := by
  obtain ⟨i1, i2, i3⟩ := hinv hne
  rw [add_in_range_eq s index count hinv hne h1 h2 (not_le.mpr hc)]
  refine ⟨rfl, length_setQ _ _ _, rfl, rfl, ?_, ?_⟩
  · exact getQ_setQ_self s.counts (index - s.offset)
      (getQ s.counts (index - s.offset) + count) (by omega)
      (by unfold get_length at i3; omega)
  · intro j hj
    exact getQ_setQ_ne _ _ _ _ hj

theorem add_in_range_frame_witness :
    ((store_new.add 5 1).add 5 2).offset = (store_new.add 5 1).offset ∧
    ((store_new.add 5 1).add 5 2).counts.length = (store_new.add 5 1).counts.length ∧
    ((store_new.add 5 1).add 5 2).min_index = (store_new.add 5 1).min_index ∧
    ((store_new.add 5 1).add 5 2).max_index = (store_new.add 5 1).max_index ∧
    getQ ((store_new.add 5 1).add 5 2).counts (5 - (store_new.add 5 1).offset)
      = getQ (store_new.add 5 1).counts (5 - (store_new.add 5 1).offset) + 2 ∧
    (∀ j : Int, j ≠ 5 - (store_new.add 5 1).offset →
      getQ ((store_new.add 5 1).add 5 2).counts j = getQ (store_new.add 5 1).counts j) :=
  add_in_range_frame (store_new.add 5 1) 5 2 (by decide) (by decide) (by decide)
    (by decide) (by decide)

/-- C8: `add` silently ignores every non-positive count, whereas `add_bin` is
a no-op only for weight exactly zero: any non-zero weight — negative included
— is added to its bucket (shown in-window, and by the Scenario C run
`add_bin((7, -2))` on a fresh store, which leaves `min_index = max_index = 7`
with stored count `-2`). -/
theorem add_guard_asymmetry :
    (∀ (s : UnboundedSizeDenseStore) (index : Int) (count : ℚ),
      count ≤ 0 → s.add index count = s) ∧
    (∀ (s : UnboundedSizeDenseStore) (bin : Int × ℚ),
      bin.2 = 0 → s.add_bin bin = s) ∧
    (∀ (s : UnboundedSizeDenseStore) (bin : Int × ℚ), s.Inv → ¬s.is_empty →
      s.min_index ≤ bin.1 → bin.1 ≤ s.max_index → bin.2 ≠ 0 →
      getQ (s.add_bin bin).counts (bin.1 - s.offset)
        = getQ s.counts (bin.1 - s.offset) + bin.2) ∧
    ((store_new.add_bin (7, -2)).get_min_index = 7 ∧
      (store_new.add_bin (7, -2)).get_max_index = 7 ∧
      (store_new.add_bin (7, -2)).get_count (7 - (store_new.add_bin (7, -2)).offset)
        = -2) := by
  refine ⟨?_, ?_, ?_, by decide⟩
  · intro s index count h
    unfold add
    rw [if_pos h]
  · intro s bin h
    unfold add_bin
    rw [if_pos h]
  · intro s bin hinv hne h1 h2 hz
    obtain ⟨i1, i2, i3⟩ := hinv hne
    rw [add_bin_in_range_eq s bin hinv hne h1 h2 hz]
    exact getQ_setQ_self s.counts (bin.1 - s.offset)
      (getQ s.counts (bin.1 - s.offset) + bin.2) (by omega)
      (by unfold get_length at i3; omega)

theorem add_guard_asymmetry_witness :
    store_new.add 0 (-1) = store_new :=
  add_guard_asymmetry.1 store_new 0 (-1) (by decide)

lemma ascLoopN_exit (l : List ℚ) (off maxI index : Int) (fuel : Nat)
    (h : maxI < index) : ascLoopN l off maxI index fuel = some [] := by
  cases fuel with
  | zero => unfold ascLoopN; rw [if_pos h]
  | succ n => unfold ascLoopN; rw [if_pos h]

/-- C9: after `clear()` every query — emptiness, min/max index, offset, total
count, both streams, `foreach` — answers exactly as on a freshly constructed
store, while the buffer keeps its length and every buffer position reads
zero. -/
theorem clear_matches_fresh_store (s : UnboundedSizeDenseStore) :
    (s.clear.is_empty ↔ store_new.is_empty) ∧
    s.clear.get_min_index = store_new.get_min_index ∧
    s.clear.get_max_index = store_new.get_max_index ∧
    s.clear.get_offset = store_new.get_offset ∧
    s.clear.get_total_count = store_new.get_total_count ∧
    s.clear.get_ascending_stream = store_new.get_ascending_stream ∧
    s.clear.get_descending_stream = store_new.get_descending_stream ∧
    s.clear.foreachPairs = store_new.foreachPairs ∧
    s.clear.counts.length = s.counts.length ∧
    (∀ j : Int, getQ s.clear.counts j = 0) := by
  have hemp : s.clear.is_empty := show i32Min < i32Max by decide
  have hemp' : store_new.is_empty := show i32Min < i32Max by decide
  refine ⟨iff_of_true hemp hemp', rfl, rfl, rfl, ?_, ?_, rfl, ?_, ?_, ?_⟩
  · unfold get_total_count get_total_count_with_range
    rw [if_pos hemp, if_pos hemp']
  · unfold get_ascending_stream
    rw [ascLoopN_exit _ _ _ _ _ hemp, ascLoopN_exit _ _ _ _ _ hemp']
  · unfold foreachPairs
    rw [if_pos hemp, if_pos hemp']
  · show (List.replicate s.counts.length (0 : ℚ)).length = s.counts.length
    simp
  · intro j
    exact getQ_replicate s.counts.length j

lemma applyOp_spec (s : UnboundedSizeDenseStore) (op : StoreOp)
    (hp : s.Params) (hinv : s.Inv) :
    (applyOp s op).Params ∧ (applyOp s op).Inv ∧
    s.counts.length ≤ (applyOp s op).counts.length ∧
    (64 ∣ s.counts.length → 64 ∣ (applyOp s op).counts.length) ∧
    (successfulInsertion op → ¬(applyOp s op).is_empty) := by
  cases op with
  | opAdd i c =>
    obtain ⟨a1, a2, a3, a4, a5⟩ := add_spec s i c hp hinv
    exact ⟨a1, a2, a3, a4, a5⟩
  | opAddBin b =>
    obtain ⟨a1, a2, a3, a4, a5⟩ := add_bin_spec s b hp hinv
    exact ⟨a1, a2, a3, a4, a5⟩
  | opClear =>
    obtain ⟨a1, a2, a3, a4⟩ := clear_spec s hp
    exact ⟨a1, a2, le_of_eq a3.symm, fun h => a3 ▸ h, fun h => absurd h (by
      unfold successfulInsertion; exact not_false)⟩

lemma applyOps_spec (ops : List StoreOp) : ∀ s : UnboundedSizeDenseStore,
    s.Params → s.Inv → 64 ∣ s.counts.length →
    (applyOps s ops).Params ∧ (applyOps s ops).Inv ∧
    64 ∣ (applyOps s ops).counts.length ∧
    s.counts.length ≤ (applyOps s ops).counts.length := by
  induction ops with
  | nil => exact fun s hp hinv hd => ⟨hp, hinv, hd, le_refl _⟩
  | cons op rest ih =>
    intro s hp hinv hd
    obtain ⟨p1, p2, p3, p4, -⟩ := applyOp_spec s op hp hinv
    obtain ⟨q1, q2, q3, q4⟩ := ih (applyOp s op) p1 p2 (p4 hd)
    exact ⟨q1, q2, q3, le_trans p3 q4⟩

lemma nonempty_length_pos (s : UnboundedSizeDenseStore) (hinv : s.Inv)
    (hne : ¬s.is_empty) : 0 < s.counts.length := by
  obtain ⟨i1, i2, i3⟩ := hinv hne
  unfold get_length at i3
  omega

/-- C5: starting from a fresh store, no operation ever shrinks the buffer,
and after any operation sequence containing at least one successful insertion
(an `add` with positive count or an `add_bin` with non-zero weight) the buffer
length is a positive multiple of the growth increment 64. -/
theorem buffer_length_growth :
    (∀ (ops : List StoreOp) (op : StoreOp),
      (applyOps store_new ops).counts.length
        ≤ (applyOp (applyOps store_new ops) op).counts.length) ∧
    (∀ ops : List StoreOp, (∃ op ∈ ops, successfulInsertion op) →
      0 < (applyOps store_new ops).counts.length ∧
      64 ∣ (applyOps store_new ops).counts.length) := by
  constructor
  · intro ops op
    obtain ⟨p1, p2, -, -⟩ := applyOps_spec ops store_new store_new_spec.1
      store_new_spec.2.1 (by decide)
    obtain ⟨-, -, s3, -, -⟩ := applyOp_spec (applyOps store_new ops) op p1 p2
    exact s3
  · rintro ops ⟨op, hmem, hsucc⟩
    obtain ⟨l1, l2, hsplit⟩ := List.append_of_mem hmem
    subst hsplit
    have hsplit2 : applyOps store_new (l1 ++ op :: l2)
        = applyOps (applyOp (applyOps store_new l1) op) l2 := by
      unfold applyOps
      rw [List.foldl_append]
      rfl
    obtain ⟨p1, p2, p3, -⟩ := applyOps_spec l1 store_new store_new_spec.1
      store_new_spec.2.1 (by decide)
    obtain ⟨q1, q2, -, q4, q5⟩ := applyOp_spec (applyOps store_new l1) op p1 p2
    have hpos : 0 < (applyOp (applyOps store_new l1) op).counts.length :=
      nonempty_length_pos _ q2 (q5 hsucc)
    obtain ⟨-, -, r3, r4⟩ := applyOps_spec l2 (applyOp (applyOps store_new l1) op)
      q1 q2 (q4 p3)
    rw [hsplit2]
    exact ⟨lt_of_lt_of_le hpos r4, r3⟩

theorem buffer_length_growth_witness :
    0 < (applyOps store_new [StoreOp.opAdd 0 1]).counts.length ∧
    64 ∣ (applyOps store_new [StoreOp.opAdd 0 1]).counts.length :=
  buffer_length_growth.2 [StoreOp.opAdd 0 1] ⟨StoreOp.opAdd 0 1, by decide, by decide⟩

lemma scenario_b_step1 (c0 : ℚ) (hc : ¬c0 ≤ 0) :
    store_new.add 0 c0 =
      ⟨setQ (List.replicate 64 0) 32 c0, -32, 0, 0, 6, 64⟩ := by
  have hx : store_new.extend_range 0 0 =
      ⟨List.replicate 64 0, -32, 0, 0, 6, 64⟩ := by decide
  unfold add normalize
  rw [if_neg hc, if_pos (show (0 : Int) < store_new.min_index ∨
    store_new.max_index < (0 : Int) by decide)]
  rw [hx]
  norm_num
  rw [getQ_replicate, zero_add]

set_option maxRecDepth 40000 in
lemma scenario_b_extend (l : List ℚ) (hlen : l.length = 64) :
    (⟨l, -32, 0, 0, 6, 64⟩ : UnboundedSizeDenseStore).extend_range 1000 1000 =
    ⟨zeroFillN (setQ (vecResize l 1024) 12 (getQ (vecResize l 1024) 32)) 13 20,
      -12, 0, 1000, 6, 64⟩ := by
  have ht0 : Int.tdiv 1006 64 = 15 := by decide
  have hnl : (⟨l, -32, 0, 0, 6, 64⟩ :
      UnboundedSizeDenseStore).get_new_length (min 1000 0) (max 1000 0) = 1024 := by
    simp only [get_new_length]
    norm_num [ht0]
  have hne : ¬(⟨l, -32, 0, 0, 6, 64⟩ : UnboundedSizeDenseStore).is_empty := by
    unfold is_empty
    norm_num
  have hfits : ¬((⟨l, -32, 0, 0, 6, 64⟩ : UnboundedSizeDenseStore).offset ≤ min 1000 0 ∧
      max 1000 0 < (⟨l, -32, 0, 0, 6, 64⟩ : UnboundedSizeDenseStore).offset +
        (⟨l, -32, 0, 0, 6, 64⟩ : UnboundedSizeDenseStore).get_length) := by
    unfold get_length
    norm_num [hlen]
  have hgrow : (⟨l, -32, 0, 0, 6, 64⟩ : UnboundedSizeDenseStore).get_length <
      (⟨l, -32, 0, 0, 6, 64⟩ : UnboundedSizeDenseStore).get_new_length
        (min 1000 0) (max 1000 0) := by
    unfold get_length
    rw [hnl]
    norm_num [hlen]
  unfold extend_range
  rw [if_neg hne, if_neg hfits]
  dsimp only
  rw [if_pos hgrow, hnl]
  have hmm : (1000 : Int) ⊓ 0 = 0 := by decide
  have hMM : (1000 : Int) ⊔ 0 = 1000 := by decide
  have htn : Int.toNat 1024 = 1024 := by decide
  rw [hmm, hMM, htn]
  have hgl : (⟨vecResize l 1024, -32, 0, 0, 6, 64⟩ :
      UnboundedSizeDenseStore).get_length = 1024 := by
    unfold get_length
    dsimp only
    rw [length_vecResize l 1024 (by omega)]
    norm_num
  unfold adjust center_counts
  dsimp only
  rw [hgl]
  have hsh : -32 + Int.tdiv 1024 2 - (0 + Int.tdiv (1000 - 0 + 1) 2) = -20 := by decide
  rw [hsh]
  have hshift : (⟨vecResize l 1024, -32, 0, 0, 6, 64⟩ :
      UnboundedSizeDenseStore).shift_counts (-20) =
      ⟨zeroFillN (setQ (vecResize l 1024) 12 (getQ (vecResize l 1024) 32)) 13 20,
        -12, 0, 0, 6, 64⟩ := by
    unfold shift_counts array_copy
    dsimp only
    norm_num [copyFwdN]
    rfl
  rw [hshift]

lemma scenario_b_step2 (l : List ℚ) (hlen : l.length = 64) (c1 : ℚ) (hc : ¬c1 ≤ 0) :
    (⟨l, -32, 0, 0, 6, 64⟩ : UnboundedSizeDenseStore).add 1000 c1 =
    ⟨setQ (zeroFillN (setQ (vecResize l 1024) 12 (getQ (vecResize l 1024) 32)) 13 20) 1012
        (getQ (zeroFillN (setQ (vecResize l 1024) 12 (getQ (vecResize l 1024) 32)) 13 20)
          1012 + c1),
      -12, 0, 1000, 6, 64⟩ := by
  have hcond : (1000 : Int) < (⟨l, -32, 0, 0, 6, 64⟩ :
      UnboundedSizeDenseStore).min_index ∨
      (⟨l, -32, 0, 0, 6, 64⟩ : UnboundedSizeDenseStore).max_index < 1000 := by
    right
    norm_num
  unfold add normalize
  rw [if_neg hc, if_pos hcond, scenario_b_extend l hlen]
  dsimp only
  rw [if_pos (show (0 : Int) ≤ 1000 - -12 by decide),
    show (1000 : Int) - -12 = 1012 by decide]

/-- C6: on a fresh store, `add(0, c0)` followed by `add(1000, c1)` with
positive `c0`, `c1` grows the buffer to exactly 1024 slots (1007 rounded up
to the next multiple of 64), and afterwards bucket 0 still reads `c0` and
bucket 1000 reads `c1` (bucket `b` lives at buffer position `b - offset`). -/
theorem scenario_b_growth (c0 c1 : ℚ) (h0 : 0 < c0) (h1 : 0 < c1) :
    ((store_new.add 0 c0).add 1000 c1).counts.length = 1024 ∧
    getQ ((store_new.add 0 c0).add 1000 c1).counts
      (0 - ((store_new.add 0 c0).add 1000 c1).offset) = c0 ∧
    getQ ((store_new.add 0 c0).add 1000 c1).counts
      (1000 - ((store_new.add 0 c0).add 1000 c1).offset) = c1 := by
  have hstep1 : store_new.add 0 c0 =
      ⟨setQ (List.replicate 64 0) 32 c0, -32, 0, 0, 6, 64⟩ :=
    scenario_b_step1 c0 (not_le.mpr h0)
  have hlen64 : (setQ (List.replicate 64 0) 32 c0).length = 64 := by
    rw [length_setQ]
    simp
  have hstep2 := scenario_b_step2 (setQ (List.replicate 64 0) 32 c0) hlen64 c1
    (not_le.mpr h1)
  rw [hstep1, hstep2]
  dsimp only
  have hvlen : (vecResize (setQ (List.replicate 64 0) 32 c0) 1024).length = 1024 :=
    length_vecResize _ 1024 (by omega)
  have hv32 : getQ (vecResize (setQ (List.replicate 64 0) 32 c0) 1024) 32 = c0 := by
    rw [getQ_vecResize _ 1024 (by omega) 32, if_pos (by rw [hlen64]; norm_num)]
    exact getQ_setQ_self _ 32 c0 (by norm_num) (by simp)
  have hZlen : (zeroFillN (setQ (vecResize (setQ (List.replicate 64 0) 32 c0) 1024) 12
      (getQ (vecResize (setQ (List.replicate 64 0) 32 c0) 1024) 32)) 13 20).length
      = 1024 := by
    rw [length_zeroFillN, length_setQ, hvlen]
  have hZ1012 : getQ (zeroFillN (setQ (vecResize (setQ (List.replicate 64 0) 32 c0) 1024) 12
      (getQ (vecResize (setQ (List.replicate 64 0) 32 c0) 1024) 32)) 13 20) 1012 = 0 := by
    rw [getQ_zeroFillN, if_neg (by norm_num),
      getQ_setQ_ne _ _ _ _ (by norm_num),
      getQ_vecResize _ 1024 (by omega) 1012, if_neg (by rw [hlen64]; norm_num)]
  have hZ12 : getQ (zeroFillN (setQ (vecResize (setQ (List.replicate 64 0) 32 c0) 1024) 12
      (getQ (vecResize (setQ (List.replicate 64 0) 32 c0) 1024) 32)) 13 20) 12 = c0 := by
    rw [getQ_zeroFillN, if_neg (by norm_num)]
    rw [getQ_setQ_self _ 12 _ (by norm_num) (by rw [hvlen]; norm_num)]
    exact hv32
  refine ⟨?_, ?_, ?_⟩
  · rw [length_setQ, hZlen]
  · rw [show (0 : Int) - -12 = 12 by decide,
      getQ_setQ_ne _ _ _ _ (by norm_num), hZ12]
  · rw [show (1000 : Int) - -12 = 1012 by decide,
      getQ_setQ_self _ 1012 _ (by norm_num) (by rw [hZlen]; norm_num), hZ1012,
      zero_add]

theorem scenario_b_growth_witness :
    ((store_new.add 0 1).add 1000 1).counts.length = 1024 ∧
    getQ ((store_new.add 0 1).add 1000 1).counts
      (0 - ((store_new.add 0 1).add 1000 1).offset) = 1 ∧
    getQ ((store_new.add 0 1).add 1000 1).counts
      (1000 - ((store_new.add 0 1).add 1000 1).offset) = 1 :=
  scenario_b_growth 1 1 (by decide) (by decide)

end UnboundedSizeDenseStore
